import Mathlib

/-!
Verification of the real-time collaboration layer of collab-notes
(internal/realtime/realtime.go, the most complete variant: the one with
presence events, the edit/typing/cursor whitelist and identity stamping,
which the specification documents as canonical).

The Go code is shallowly embedded as pure Lean functions:

* a websocket connection handle is an opaque identity, modelled as a Nat
  (Go compares handles by pointer identity; only equality is used);
* the registry `rooms map[string]map[WebSocketConn]bool` is modelled as an
  association list from note id to the list of member connections (the
  inner map is used as a set: values are always `true`);
* `JoinRoom`, `LeaveRoom`, `BroadcastToRoom` are translated clause by
  clause from the source;
* sends performed by `conn.WriteMessage` are collected in a trace of
  `SendAttempt` records; the boolean `ok` field records whether the send
  succeeded (a failing send is only logged by the Go code, so it leaves no
  other footprint than the log line, which we do not model);
* the session handler `HandleWebSocket` is modelled by `HandleSession`,
  a function of the finite list of frames successfully read before
  `ReadMessage` fails (the only way the receive loop exits);
* inbound payloads are modelled at the JSON-value level: `Payload.malformed`
  stands for bytes that are not parseable JSON, `Payload.value j` for bytes
  that parse to the JSON value `j`; `decodeIncoming` models
  `json.Unmarshal(message, &incoming)` for the two-field struct
  `IncomingMessage`, including the case-insensitive field-name matching and
  the last-member-wins / null-is-a-no-op semantics of encoding/json.
-/

/-- Opaque identity of a websocket connection handle.  Go compares handles
by pointer identity; the embedding only ever compares them for equality. -/
abbrev Conn := Nat

/-- JSON values, as produced by parsing an inbound text frame. -/
inductive Json : Type where
  | str (s : String)
  | num (n : Int)
  | bool (b : Bool)
  | null
  | arr (xs : List Json)
  | obj (members : List (String × Json))

/-- The two-field struct `IncomingMessage` of realtime.go (fields `Type`,
`Content`, renamed to lower case because `Type` is reserved in Lean). -/
structure IncomingMessage where
  type : String
  content : String
deriving DecidableEq

/-- The registry state: `rooms map[string]map[WebSocketConn]bool`, as an
association list from note id to member list (inner map used as a set). -/
abbrev Rooms := List (String × List Conn)

/-- Go map lookup `rm.rooms[noteID]` (first matching key). -/
def lookupRoom : Rooms → String → Option (List Conn)
  | [], _ => none
  | (k, v) :: rest, d => if k = d then some v else lookupRoom rest d

/-- Go set insertion `room[conn] = true`. -/
def insertConn (room : List Conn) (c : Conn) : List Conn :=
  if c ∈ room then room else room ++ [c]

/-- `JoinRoom` of realtime.go: create the room if it does not exist, then
add the connection to it. -/
def JoinRoom : Rooms → String → Conn → Rooms
  | [], d, c => [(d, [c])]
  | (k, v) :: rest, d, c =>
      if k = d then (k, insertConn v c) :: rest
      else (k, v) :: JoinRoom rest d c

/-- `LeaveRoom` of realtime.go: if the room does not exist return false
without changes; otherwise delete the connection from the room, and if the
room is now empty delete the room and return true, else return false. -/
def LeaveRoom : Rooms → String → Conn → Rooms × Bool
  | [], _, _ => ([], false)
  | (k, v) :: rest, d, c =>
      if k = d then
        let v2 := v.filter (fun x => x != c)
        if v2 = [] then (rest, true) else ((k, v2) :: rest, false)
      else
        ((k, v) :: (LeaveRoom rest d c).1, (LeaveRoom rest d c).2)

/-- One attempted `conn.WriteMessage(messageType, message)` call during a
broadcast.  `ok` records whether the write succeeded; a failed write is only
logged by the Go code. -/
structure SendAttempt (α : Type) where
  conn : Conn
  messageType : Int
  message : α
  ok : Bool
deriving DecidableEq

/-- `BroadcastToRoom` of realtime.go: if the room does not exist, do
nothing; otherwise write the message to every member except the sender.  A
failing write is logged and the loop continues with the next member; the Go
function returns nothing, so no error ever reaches the caller.  The
environment parameter `sendOk` says which connection writes succeed; the
function returns the trace of attempted sends. -/
def BroadcastToRoom {α : Type} (sendOk : Conn → Bool) (rooms : Rooms)
    (noteID : String) (sender : Conn) (messageType : Int) (message : α) :
    List (SendAttempt α) :=
  match lookupRoom rooms noteID with
  | none => []
  | some room =>
      (room.filter (fun c => c != sender)).map
        (fun c => ⟨c, messageType, message, sendOk c⟩)

/-- ASCII-faithful model of the field-name folding of encoding/json: object
keys are matched against the json tag of a struct field preferring an exact
match but also accepting a case-insensitive match.  The tags here are the
lower-case strings type and content, so matching reduces to comparing the
lower-cased key with the tag. -/
def keyMatches (k field : String) : Bool :=
  String.mk (k.data.map Char.toLower) == field

/-- Decoding the members of a JSON object into `IncomingMessage`, following
encoding/json: members are processed in order; a member whose key matches a
field overwrites that field when its value is a string, is a no-op when its
value is null, and makes `json.Unmarshal` report an error otherwise (the
session drops the message whenever an error is reported, so the model
returns `none` there); members matching no field are skipped. -/
def decodeFields : List (String × Json) → String → String → Option IncomingMessage
  | [], t, c => some ⟨t, c⟩
  | (k, v) :: rest, t, c =>
      if keyMatches k "type" then
        match v with
        | .str s => decodeFields rest s c
        | .null => decodeFields rest t c
        | _ => none
      else if keyMatches k "content" then
        match v with
        | .str s => decodeFields rest t s
        | .null => decodeFields rest t c
        | _ => none
      else decodeFields rest t c

/-- Model of `json.Unmarshal(message, &incoming)` on a parsed JSON value: a
top-level object is decoded field by field, top-level null leaves the struct
at its zero value, and any other top-level value is a type error. -/
def decodeIncoming : Json → Option IncomingMessage
  | .obj ms => decodeFields ms "" ""
  | .null => some ⟨"", ""⟩
  | _ => none

/-- The message-type whitelist switch of the session loop: a type is valid
when it is edit, typing or cursor. -/
def validType (t : String) : Bool :=
  t == "edit" || t == "typing" || t == "cursor"

/-- Model of marshalling the outgoing rebroadcast map with keys type,
content and user-id: Go marshals map keys in sorted order, hence
content, type, user-id. -/
def marshalOutgoing (m : IncomingMessage) (userID : String) : Json :=
  .obj [("content", .str m.content), ("type", .str m.type), ("user-id", .str userID)]

/-- Model of marshalling a `PresenceMessage` struct: struct fields are
marshalled in declaration order, hence type, action, user-id. -/
def presenceMessage (action userID : String) : Json :=
  .obj [("type", .str "presence"), ("action", .str action), ("user-id", .str userID)]

/-- `websocket.TextMessage`. -/
def textMessage : Int := 1

/-- An inbound frame body as seen after `ReadMessage`: either bytes that are
not parseable JSON, or bytes that parse to a JSON value. -/
inductive Payload : Type where
  | malformed
  | value (j : Json)

/-- The body of the receive loop of `HandleWebSocket` for one successfully
read frame: unmarshal (drop and continue on error), drop when type or
content is empty, drop when the type is outside the whitelist, otherwise
stamp the verified user identity onto the payload and broadcast it with the
reading connection as sender.  Returns the sends performed for this frame;
the registry is not mutated by any branch. -/
def processFrame (sendOk : Conn → Bool) (rooms : Rooms) (noteID userID : String)
    (conn : Conn) (mt : Int) (p : Payload) : List (SendAttempt Json) :=
  match p with
  | .malformed => []
  | .value j =>
      match decodeIncoming j with
      | none => []
      | some m =>
          if m.type = "" ∨ m.content = "" then []
          else if validType m.type then
            BroadcastToRoom sendOk rooms noteID conn mt (marshalOutgoing m userID)
          else []

/-- The receive loop of `HandleWebSocket`: process each successfully read
frame in order; the loop exits when `ReadMessage` fails, i.e. at the end of
the frame list.  No branch of the loop mutates the registry. -/
def runLoop (sendOk : Conn → Bool) (rooms : Rooms) (noteID userID : String)
    (conn : Conn) : List (Int × Payload) → List (SendAttempt Json)
  | [] => []
  | (mt, p) :: rest =>
      processFrame sendOk rooms noteID userID conn mt p ++
        runLoop sendOk rooms noteID userID conn rest

/-- Why the receive loop exited: `ReadMessage` fails on an abrupt
disconnect, a close initiated by the server, or a protocol error.  The Go
loop breaks on any error, without inspecting it. -/
inductive ExitReason : Type where
  | abruptDisconnect
  | serverClose
  | protocolError
deriving DecidableEq

/-- Observable outcome of one session: the final registry state, the trace
of all attempted sends, and whether the connection handle was closed when
the handler returned. -/
structure SessionResult where
  rooms : Rooms
  sends : List (SendAttempt Json)
  closed : Bool

/-- The authorized path of `HandleWebSocket` (note id present, verified
identity in the context): join the room, broadcast a join presence event,
run the receive loop over the frames read before the channel fails for
`reason`, then run the deferred teardown, which leaves the room and
broadcasts a leave presence event.  The connection handle is closed when
the handler returns: the upgrade wrapper that invoked the handler closes
the hijacked connection unconditionally once the handler function is done,
so the result records `closed := true` on every path. -/
def HandleSession (sendOk : Conn → Bool) (rooms0 : Rooms) (noteID userID : String)
    (conn : Conn) (frames : List (Int × Payload)) (reason : ExitReason) :
    SessionResult :=
  let rooms1 := JoinRoom rooms0 noteID conn
  let joinSends :=
    BroadcastToRoom sendOk rooms1 noteID conn textMessage (presenceMessage "join" userID)
  let loopSends := runLoop sendOk rooms1 noteID userID conn frames
  let rooms2 := (LeaveRoom rooms1 noteID conn).1
  let leaveSends :=
    BroadcastToRoom sendOk rooms2 noteID conn textMessage (presenceMessage "leave" userID)
  { rooms := rooms2
  , sends := joinSends ++ loopSends ++ leaveSends
  , closed := true }

/-- One registry call, for reasoning about operation sequences. -/
inductive Op : Type where
  | join (noteID : String) (conn : Conn)
  | leave (noteID : String) (conn : Conn)
  | bcast (noteID : String) (sender : Conn) (messageType : Int)
deriving DecidableEq

/-- Effect of one registry call on the registry state.  `BroadcastToRoom`
holds only the read lock and performs no write to the rooms mapping, so its
effect on the state is the identity. -/
def applyOp (rooms : Rooms) : Op → Rooms
  | .join d c => JoinRoom rooms d c
  | .leave d c => (LeaveRoom rooms d c).1
  | .bcast _ _ _ => rooms

/-- A registry state reachable from the empty registry by some sequence of
registry calls. -/
def Reachable (rooms : Rooms) : Prop :=
  ∃ ops : List Op, rooms = List.foldl applyOp [] ops

/-- Connection `c` is a member of the room for `d`. -/
def InRoom (rooms : Rooms) (d : String) (c : Conn) : Prop :=
  ∃ v, lookupRoom rooms d = some v ∧ c ∈ v

/-- Every connection handle appears in the member set of at most one room. -/
def AtMostOneRoom (rooms : Rooms) : Prop :=
  ∀ d1 d2 c, InRoom rooms d1 c → InRoom rooms d2 c → d1 = d2

/-- The member set of the room for `d` (empty when there is no room), as in
the spec reading of the registry. -/
def memberSet (rooms : Rooms) (d : String) : List Conn :=
  (lookupRoom rooms d).getD []

/-- The association list has pairwise distinct keys, as a Go map does. -/
def KeysDistinct (rooms : Rooms) : Prop :=
  List.Nodup (rooms.map Prod.fst)

/-- Each connection only ever joins a single document: every join call in
the sequence for connection `c` names the document `f c`.  This is how the
session protocol drives the registry: one session joins exactly one room
for its lifetime. -/
def JoinsFunctional (f : Conn → Option String) (ops : List Op) : Prop :=
  ∀ d c, Op.join d c ∈ ops → f c = some d

/-- Every room entry of the registry list has a non-empty member list. -/
def EntriesNonEmpty (rooms : Rooms) : Prop :=
  ∀ e ∈ rooms, e.2 ≠ ([] : List Conn)

/-- Every member of every room entry is a connection whose (unique) joined
document, according to `f`, is that entry's key. -/
def MemberDocEntry (f : Conn → Option String) (rooms : Rooms) : Prop :=
  ∀ e ∈ rooms, ∀ x ∈ e.2, f x = some e.1

example : decodeIncoming (Json.obj [("type", Json.str "edit"), ("content", Json.str "hello")]) = some ⟨"edit", "hello"⟩ := by decide

example : decodeIncoming (Json.obj [("type", Json.str "edit"), ("content", Json.str "hello"), ("CONTENT", Json.num 5)]) = none := by decide

example : JoinRoom [] "r" 0 = [("r", [0])] := by decide

example : processFrame (fun _ => true) [("r1", [0, 1])] "r1" "u1" 0 1
    (Payload.value (Json.obj [("type", Json.str "edit"), ("content", Json.str "hello")])) =
    [⟨1, 1, Json.obj [("content", Json.str "hello"), ("type", Json.str "edit"), ("user-id", Json.str "u1")], true⟩] := by
  rfl

/-! ## Helper lemmas about the registry operations -/

lemma insertConn_ne_nil (v : List Conn) (c : Conn) : insertConn v c ≠ [] := by
  by_cases hc : c ∈ v
  · simpa [insertConn, hc] using List.ne_nil_of_mem hc
  · simp [insertConn, hc]

lemma mem_insertConn (v : List Conn) (c x : Conn) :
    x ∈ insertConn v c ↔ x ∈ v ∨ x = c := by
  by_cases hc : c ∈ v
  · simp only [insertConn, if_pos hc]
    exact ⟨Or.inl, fun h => h.elim id (fun hx => by rw [hx]; exact hc)⟩
  · simp [insertConn, if_neg hc]

lemma lookupRoom_mem (rooms : Rooms) (d : String) (v : List Conn)
    (h : lookupRoom rooms d = some v) : (d, v) ∈ rooms := by
  induction rooms with
  | nil => simp [lookupRoom] at h
  | cons e rest ih =>
    obtain ⟨k, w⟩ := e
    by_cases hk : k = d
    · subst hk
      simp only [lookupRoom, if_pos rfl] at h
      injection h with h
      rw [← h]
      exact List.mem_cons_self _ _
    · simp only [lookupRoom, if_neg hk] at h
      exact List.mem_cons_of_mem _ (ih h)

lemma lookupRoom_none_of_not_mem (rooms : Rooms) (d : String)
    (h : d ∉ rooms.map Prod.fst) : lookupRoom rooms d = none := by
  induction rooms with
  | nil => rfl
  | cons e rest ih =>
    obtain ⟨k, w⟩ := e
    simp only [List.map_cons, List.mem_cons] at h
    push_neg at h
    have hk : k ≠ d := fun hkd => h.1 hkd.symm
    simp only [lookupRoom, if_neg hk]
    exact ih h.2

/-! ## C1, C7, C8: properties of BroadcastToRoom -/

/-- C1: broadcast never delivers to the sender.  For every registry state
whose room for `noteID` has member list `room`, `BroadcastToRoom` attempts a
send of exactly the given message, with the given message type, to exactly
the members of `room` other than `sender`, and no attempted send targets
`sender`, for all choices of sender, message and send-failure environment. -/
theorem broadcast_excludes_sender {α : Type} (sendOk : Conn → Bool) (rooms : Rooms)
    (noteID : String) (sender : Conn) (mt : Int) (msg : α) (room : List Conn)
    (hroom : lookupRoom rooms noteID = some room) :
    (∀ x : Conn,
      (∃ a ∈ BroadcastToRoom sendOk rooms noteID sender mt msg, a.conn = x)
        ↔ (x ∈ room ∧ x ≠ sender))
    ∧ ∀ a ∈ BroadcastToRoom sendOk rooms noteID sender mt msg,
        a.conn ≠ sender ∧ a.messageType = mt ∧ a.message = msg := by
  constructor
  · intro x
    simp [BroadcastToRoom, hroom, List.mem_map, List.mem_filter, bne_iff_ne]
  · intro a ha
    simp only [BroadcastToRoom, hroom, List.mem_map, List.mem_filter,
      bne_iff_ne, ne_eq] at ha
    obtain ⟨c, ⟨_, hcs⟩, rfl⟩ := ha
    exact ⟨hcs, rfl, rfl⟩

/-- Witness for C1 at a concrete registry with room members 0 and 1 and
sender 0. -/
theorem broadcast_excludes_sender_witness :
    lookupRoom [("r", [0, 1])] "r" = some [0, 1]
    ∧ ((∀ x : Conn,
        (∃ a ∈ BroadcastToRoom (fun _ => true) [("r", [0, 1])] "r" 0 1 "m", a.conn = x)
          ↔ (x ∈ [0, 1] ∧ x ≠ 0))
      ∧ ∀ a ∈ BroadcastToRoom (fun _ => true) [("r", [0, 1])] "r" 0 1 "m",
          a.conn ≠ 0 ∧ a.messageType = 1 ∧ a.message = "m") :=
  ⟨by decide,
    broadcast_excludes_sender (fun _ => true) [("r", [0, 1])] "r" 0 1 "m" [0, 1] (by decide)⟩

/-- C7: broadcast is read-only and total on absent rooms.  As a registry
call, `BroadcastToRoom` leaves the registry state exactly as it was (it only
reads under the shared lock), and on a document identifier with no room it
performs zero sends and raises no error. -/
theorem broadcast_readonly_total {α : Type} (sendOk : Conn → Bool) (rooms : Rooms)
    (noteID : String) (sender : Conn) (mt : Int) (msg : α) :
    applyOp rooms (Op.bcast noteID sender mt) = rooms
    ∧ (lookupRoom rooms noteID = none →
        BroadcastToRoom sendOk rooms noteID sender mt msg = []) :=
  ⟨rfl, fun h => by simp [BroadcastToRoom, h]⟩

/-- Witness for C7 at a concrete registry that has no room for the
broadcast target. -/
theorem broadcast_readonly_total_witness :
    applyOp [("x", [5])] (Op.bcast "r" 0 1) = [("x", [5])]
    ∧ lookupRoom [("x", [5])] "r" = none
    ∧ BroadcastToRoom (fun _ => true) [("x", [5])] "r" 0 1 "m" = [] :=
  ⟨(broadcast_readonly_total (fun _ => true) [("x", [5])] "r" 0 1 "m").1,
    by decide,
    (broadcast_readonly_total (fun _ => true) [("x", [5])] "r" 0 1 "m").2 (by decide)⟩

/-- C8: per-recipient send-failure isolation.  Even when the send to some
non-sender member `bad` of the room fails, the broadcast still attempts
delivery of the message to every non-sender member of the room (the trace of
attempted targets is exactly the member list minus the sender, and every
non-sender member receives an attempt carrying the message), and the
function returns its trace normally: failures are only recorded, never
propagated to the caller. -/
theorem broadcast_failure_isolated {α : Type} (sendOk : Conn → Bool) (rooms : Rooms)
    (noteID : String) (sender : Conn) (mt : Int) (msg : α) (room : List Conn) (bad : Conn)
    (hroom : lookupRoom rooms noteID = some room) (hbad : bad ∈ room)
    (hbads : bad ≠ sender) (hfail : sendOk bad = false) :
    ((BroadcastToRoom sendOk rooms noteID sender mt msg).map (fun a => a.conn)
      = room.filter (fun x => x != sender))
    ∧ ∀ x ∈ room, x ≠ sender →
        ∃ a ∈ BroadcastToRoom sendOk rooms noteID sender mt msg,
          a.conn = x ∧ a.messageType = mt ∧ a.message = msg := by
  constructor
  · simp only [BroadcastToRoom, hroom, List.map_map]
    exact List.map_id _
  · intro x hx hxs
    refine ⟨⟨x, mt, msg, sendOk x⟩, ?_, rfl, rfl, rfl⟩
    simp only [BroadcastToRoom, hroom, List.mem_map, List.mem_filter, bne_iff_ne]
    exact ⟨x, ⟨hx, hxs⟩, rfl⟩

/-- Witness for C8: room with members 0, 1, 2, sender 0, the send to member
1 fails, yet both 1 and 2 are attempted. -/
theorem broadcast_failure_isolated_witness :
    lookupRoom [("r", [0, 1, 2])] "r" = some [0, 1, 2]
    ∧ (1 : Conn) ∈ [0, 1, 2] ∧ (1 : Conn) ≠ 0 ∧ (fun c : Conn => c != 1) 1 = false
    ∧ ((BroadcastToRoom (fun c : Conn => c != 1) [("r", [0, 1, 2])] "r" 0 1 "m").map
          (fun a => a.conn)
        = [0, 1, 2].filter (fun x => x != 0))
    ∧ ∀ x ∈ [0, 1, 2], x ≠ 0 →
        ∃ a ∈ BroadcastToRoom (fun c : Conn => c != 1) [("r", [0, 1, 2])] "r" 0 1 "m",
          a.conn = x ∧ a.messageType = 1 ∧ a.message = "m" := by
  refine ⟨by decide, by decide, by decide, by decide, ?_, ?_⟩
  · exact (broadcast_failure_isolated (fun c : Conn => c != 1) [("r", [0, 1, 2])]
      "r" 0 1 "m" [0, 1, 2] 1 (by decide) (by decide) (by decide) (by decide)).1
  · exact (broadcast_failure_isolated (fun c : Conn => c != 1) [("r", [0, 1, 2])]
      "r" 0 1 "m" [0, 1, 2] 1 (by decide) (by decide) (by decide) (by decide)).2

/-! ## C9: LeaveRoom return contract -/

lemma leave_not_found (rooms : Rooms) (d : String) (c : Conn)
    (h : lookupRoom rooms d = none) : LeaveRoom rooms d c = (rooms, false) := by
  induction rooms with
  | nil => rfl
  | cons e rest ih =>
    obtain ⟨k, v⟩ := e
    by_cases hk : k = d
    · simp [lookupRoom, hk] at h
    · simp only [lookupRoom, if_neg hk] at h
      simp [LeaveRoom, hk, ih h]

lemma leave_true_iff (rooms : Rooms) (d : String) (c : Conn) :
    (LeaveRoom rooms d c).2 = true
      ↔ ∃ v, lookupRoom rooms d = some v ∧ v.filter (fun x => x != c) = [] := by
  induction rooms with
  | nil => simp [LeaveRoom, lookupRoom]
  | cons e rest ih =>
    obtain ⟨k, v⟩ := e
    by_cases hk : k = d
    · subst hk
      by_cases hv : v.filter (fun x => x != c) = []
      · constructor
        · intro _
          exact ⟨v, by simp [lookupRoom], hv⟩
        · intro _
          simp [LeaveRoom, hv]
      · constructor
        · intro h2
          exfalso
          simp [LeaveRoom, hv] at h2
        · rintro ⟨w, hw, hfw⟩
          simp only [lookupRoom, if_pos rfl] at hw
          injection hw with hw
          rw [← hw] at hfw
          exact absurd hfw hv
    · simp [LeaveRoom, lookupRoom, hk, ih]

lemma leave_true_lookup (rooms : Rooms) (d : String) (c : Conn)
    (hkd : KeysDistinct rooms) (h : (LeaveRoom rooms d c).2 = true) :
    lookupRoom (LeaveRoom rooms d c).1 d = none := by
  induction rooms with
  | nil => simp [LeaveRoom] at h
  | cons e rest ih =>
    obtain ⟨k, v⟩ := e
    have hnodup := hkd
    simp only [KeysDistinct, List.map_cons, List.nodup_cons] at hnodup
    by_cases hk : k = d
    · subst hk
      by_cases hv : v.filter (fun x => x != c) = []
      · simp only [LeaveRoom, if_pos rfl, if_pos hv]
        exact lookupRoom_none_of_not_mem rest k hnodup.1
      · simp [LeaveRoom, hv] at h
    · simp only [LeaveRoom, if_neg hk] at h ⊢
      simp only [lookupRoom, if_neg hk]
      exact ih hnodup.2 h

/-- C9: LeaveRoom returns true exactly when removing the connection emptied
the member set of the room (in which case the room is deleted from the
mapping), and on a document identifier with no room it returns false and
leaves the registry unchanged. -/
theorem leave_return_contract (rooms : Rooms) (d : String) (c : Conn)
    (hkd : KeysDistinct rooms) :
    ((LeaveRoom rooms d c).2 = true
      ↔ ∃ v, lookupRoom rooms d = some v ∧ v.filter (fun x => x != c) = [])
    ∧ ((LeaveRoom rooms d c).2 = true → lookupRoom (LeaveRoom rooms d c).1 d = none)
    ∧ (lookupRoom rooms d = none → LeaveRoom rooms d c = (rooms, false)) :=
  ⟨leave_true_iff rooms d c,
    leave_true_lookup rooms d c hkd,
    leave_not_found rooms d c⟩

/-- Witness for C9 at a concrete registry: leaving the only member of room r
returns true and deletes the room; leaving a room that never existed returns
false and changes nothing. -/
theorem leave_return_contract_witness :
    KeysDistinct [("r", [0])]
    ∧ (((LeaveRoom [("r", [0])] "r" 0).2 = true
        ↔ ∃ v, lookupRoom [("r", [0])] "r" = some v ∧ v.filter (fun x => x != 0) = [])
      ∧ ((LeaveRoom [("r", [0])] "r" 0).2 = true →
          lookupRoom (LeaveRoom [("r", [0])] "r" 0).1 "r" = none)
      ∧ (lookupRoom [("r", [0])] "q" = none → LeaveRoom [("r", [0])] "q" 0 = ([("r", [0])], false))) := by
  constructor
  · unfold KeysDistinct
    decide
  · refine ⟨(leave_return_contract [("r", [0])] "r" 0 ?hw).1,
      (leave_return_contract [("r", [0])] "r" 0 ?hw).2.1,
      (leave_return_contract [("r", [0])] "q" 0 ?hw).2.2⟩
    case hw =>
      unfold KeysDistinct
      decide

/-! ## C5: no empty room ever exists in a reachable registry -/

lemma entries_join (rooms : Rooms) (d : String) (c : Conn)
    (h : EntriesNonEmpty rooms) : EntriesNonEmpty (JoinRoom rooms d c) := by
  induction rooms with
  | nil =>
    intro e he
    simp only [JoinRoom, List.mem_singleton] at he
    rw [he]
    simp
  | cons hd rest ih =>
    obtain ⟨k, v⟩ := hd
    intro e he
    by_cases hk : k = d
    · simp only [JoinRoom, if_pos hk] at he
      rcases List.mem_cons.mp he with h1 | h2
      · rw [h1]
        exact insertConn_ne_nil v c
      · exact h e (List.mem_cons_of_mem _ h2)
    · simp only [JoinRoom, if_neg hk] at he
      rcases List.mem_cons.mp he with h1 | h2
      · rw [h1]
        exact h (k, v) (List.mem_cons_self _ _)
      · exact ih (fun e2 he2 => h e2 (List.mem_cons_of_mem _ he2)) e h2

lemma entries_leave (rooms : Rooms) (d : String) (c : Conn)
    (h : EntriesNonEmpty rooms) : EntriesNonEmpty (LeaveRoom rooms d c).1 := by
  induction rooms with
  | nil =>
    intro e he
    simp [LeaveRoom] at he
  | cons hd rest ih =>
    obtain ⟨k, v⟩ := hd
    intro e he
    by_cases hk : k = d
    · subst hk
      by_cases hv : v.filter (fun x => x != c) = []
      · simp only [LeaveRoom, if_pos rfl, if_pos hv] at he
        exact h e (List.mem_cons_of_mem _ he)
      · simp only [LeaveRoom, if_pos rfl, if_neg hv] at he
        rcases List.mem_cons.mp he with h1 | h2
        · rw [h1]
          exact hv
        · exact h e (List.mem_cons_of_mem _ h2)
    · simp only [LeaveRoom, if_neg hk] at he
      rcases List.mem_cons.mp he with h1 | h2
      · rw [h1]
        exact h (k, v) (List.mem_cons_self _ _)
      · exact ih (fun e2 he2 => h e2 (List.mem_cons_of_mem _ he2)) e h2

lemma reachable_entries (ops : List Op) :
    ∀ rooms : Rooms, EntriesNonEmpty rooms →
      EntriesNonEmpty (List.foldl applyOp rooms ops) := by
  induction ops with
  | nil =>
    intro rooms h
    simpa using h
  | cons op rest ih =>
    intro rooms h
    simp only [List.foldl_cons]
    apply ih
    cases op with
    | join d c => exact entries_join rooms d c h
    | leave d c => exact entries_leave rooms d c h
    | bcast d s mt => exact h

/-- C5: in every registry state reachable from the empty registry by any
sequence of JoinRoom, LeaveRoom and BroadcastToRoom calls, a document
identifier is a key of the rooms mapping if and only if its member set is
non-empty. -/
theorem registry_key_iff_nonempty (rooms : Rooms) (h : Reachable rooms) (d : String) :
    lookupRoom rooms d ≠ none ↔ memberSet rooms d ≠ [] := by
  obtain ⟨ops, rfl⟩ := h
  have inv : EntriesNonEmpty (List.foldl applyOp [] ops) :=
    reachable_entries ops [] (by intro e he; simp at he)
  cases hcase : lookupRoom (List.foldl applyOp [] ops) d with
  | none => simp [memberSet, hcase]
  | some v =>
    simp only [memberSet, hcase, Option.getD_some, ne_eq]
    constructor
    · intro _
      exact inv (d, v) (lookupRoom_mem _ _ _ hcase)
    · intro _ hnone
      exact Option.noConfusion hnone

/-- Witness for C5 at the state reached by a single join. -/
theorem registry_key_iff_nonempty_witness :
    Reachable [("r", [0])]
    ∧ (lookupRoom [("r", [0])] "r" ≠ none ↔ memberSet [("r", [0])] "r" ≠ []) :=
  ⟨⟨[Op.join "r" 0], rfl⟩,
    registry_key_iff_nonempty [("r", [0])] ⟨[Op.join "r" 0], rfl⟩ "r"⟩

/-! ## C6: single-room membership -/

/-- C6 counterexample: the registry operations alone do not enforce
single-room membership.  The state reached from the empty registry by the
two calls JoinRoom a 0 and JoinRoom b 0 is reachable, yet connection 0 is a
member of the rooms of both document a and document b, so the claim as
stated (for any sequence of registry calls) is false. -/
theorem single_room_counterexample :
    Reachable (List.foldl applyOp [] [Op.join "a" 0, Op.join "b" 0])
    ∧ ¬ AtMostOneRoom (List.foldl applyOp [] [Op.join "a" 0, Op.join "b" 0]) := by
  refine ⟨⟨[Op.join "a" 0, Op.join "b" 0], rfl⟩, ?_⟩
  intro h
  have hab : "a" = "b" :=
    h "a" "b" 0 ⟨[0], by decide, by decide⟩ ⟨[0], by decide, by decide⟩
  exact absurd hab (by decide)

lemma mde_join (f : Conn → Option String) (rooms : Rooms) (d : String) (c : Conn)
    (hf : f c = some d) (h : MemberDocEntry f rooms) :
    MemberDocEntry f (JoinRoom rooms d c) := by
  induction rooms with
  | nil =>
    intro e he x hx
    simp only [JoinRoom, List.mem_singleton] at he
    rw [he] at hx ⊢
    simp only [List.mem_singleton] at hx
    rw [hx]
    exact hf
  | cons hd rest ih =>
    obtain ⟨k, v⟩ := hd
    intro e he x hx
    by_cases hk : k = d
    · simp only [JoinRoom, if_pos hk] at he
      rcases List.mem_cons.mp he with h1 | h2
      · rw [h1] at hx ⊢
        rcases (mem_insertConn v c x).mp hx with hv | hc
        · have := h (k, v) (List.mem_cons_self _ _) x hv
          simpa using this
        · rw [hc, hk]
          exact hf
      · exact h e (List.mem_cons_of_mem _ h2) x hx
    · simp only [JoinRoom, if_neg hk] at he
      rcases List.mem_cons.mp he with h1 | h2
      · rw [h1] at hx ⊢
        exact h (k, v) (List.mem_cons_self _ _) x hx
      · exact ih (fun e2 he2 => h e2 (List.mem_cons_of_mem _ he2)) e h2 x hx

lemma mde_leave (f : Conn → Option String) (rooms : Rooms) (d : String) (c : Conn)
    (h : MemberDocEntry f rooms) : MemberDocEntry f (LeaveRoom rooms d c).1 := by
  induction rooms with
  | nil =>
    intro e he
    simp [LeaveRoom] at he
  | cons hd rest ih =>
    obtain ⟨k, v⟩ := hd
    intro e he x hx
    by_cases hk : k = d
    · subst hk
      by_cases hv : v.filter (fun x => x != c) = []
      · simp only [LeaveRoom, if_pos rfl, if_pos hv] at he
        exact h e (List.mem_cons_of_mem _ he) x hx
      · simp only [LeaveRoom, if_pos rfl, if_neg hv] at he
        rcases List.mem_cons.mp he with h1 | h2
        · rw [h1] at hx ⊢
          exact h (k, v) (List.mem_cons_self _ _) x (List.mem_of_mem_filter hx)
        · exact h e (List.mem_cons_of_mem _ h2) x hx
    · simp only [LeaveRoom, if_neg hk] at he
      rcases List.mem_cons.mp he with h1 | h2
      · rw [h1] at hx ⊢
        exact h (k, v) (List.mem_cons_self _ _) x hx
      · exact ih (fun e2 he2 => h e2 (List.mem_cons_of_mem _ he2)) e h2 x hx

lemma reachable_mde (f : Conn → Option String) (ops : List Op) :
    ∀ rooms : Rooms, MemberDocEntry f rooms →
      (∀ d c, Op.join d c ∈ ops → f c = some d) →
      MemberDocEntry f (List.foldl applyOp rooms ops) := by
  induction ops with
  | nil =>
    intro rooms h _
    simpa using h
  | cons op rest ih =>
    intro rooms h hops
    simp only [List.foldl_cons]
    apply ih
    · cases op with
      | join d c => exact mde_join f rooms d c (hops d c (List.mem_cons_self _ _)) h
      | leave d c => exact mde_leave f rooms d c h
      | bcast d s mt => exact h
    · intro d c hm
      exact hops d c (List.mem_cons_of_mem _ hm)

/-- C6 amended: in every state reachable from the empty registry by a
sequence of registry calls in which each connection only ever joins a single
document (as the session protocol guarantees: a session joins exactly one
room for its lifetime), each connection handle appears in the member set of
at most one room. -/
theorem single_room_of_functional_joins (f : Conn → Option String) (ops : List Op)
    (h : JoinsFunctional f ops) : AtMostOneRoom (List.foldl applyOp [] ops) := by
  have inv : MemberDocEntry f (List.foldl applyOp [] ops) :=
    reachable_mde f ops [] (by intro e he; simp at he) h
  intro d1 d2 c h1 h2
  obtain ⟨v1, hv1, hc1⟩ := h1
  obtain ⟨v2, hv2, hc2⟩ := h2
  have e1 := inv (d1, v1) (lookupRoom_mem _ _ _ hv1) c hc1
  have e2 := inv (d2, v2) (lookupRoom_mem _ _ _ hv2) c hc2
  rw [e1] at e2
  exact Option.some.inj e2

/-- Witness for C6 amended: one session joining room r. -/
theorem single_room_of_functional_joins_witness :
    JoinsFunctional (fun _ => some "r") [Op.join "r" 0]
    ∧ AtMostOneRoom (List.foldl applyOp [] [Op.join "r" 0]) := by
  have hf : JoinsFunctional (fun _ => some "r") [Op.join "r" 0] := by
    intro d c hm
    simp only [List.mem_singleton, Op.join.injEq] at hm
    rw [hm.1]
  exact ⟨hf, single_room_of_functional_joins (fun _ => some "r") [Op.join "r" 0] hf⟩

/-! ## C2: guaranteed session teardown -/

/-- C2: for every exit of the receive loop — whatever frames were read
before the channel failed and whichever exit condition (abrupt disconnect,
server-initiated close, protocol error) triggered the failure — the session
deregisters the connection via LeaveRoom, its send trace ends with the
broadcast of the leave presence event (type presence, action leave, user-id
the participant identity), the connection handle is closed when the handler
returns, and the outcome does not depend on the exit condition at all. -/
theorem session_teardown_guaranteed (sendOk : Conn → Bool) (rooms0 : Rooms)
    (noteID userID : String) (conn : Conn) (frames : List (Int × Payload))
    (reason : ExitReason) :
    (HandleSession sendOk rooms0 noteID userID conn frames reason).rooms
      = (LeaveRoom (JoinRoom rooms0 noteID conn) noteID conn).1
    ∧ (HandleSession sendOk rooms0 noteID userID conn frames reason).closed = true
    ∧ (∃ pre, (HandleSession sendOk rooms0 noteID userID conn frames reason).sends
        = pre ++ BroadcastToRoom sendOk
            (LeaveRoom (JoinRoom rooms0 noteID conn) noteID conn).1
            noteID conn textMessage (presenceMessage "leave" userID))
    ∧ ∀ reason2, HandleSession sendOk rooms0 noteID userID conn frames reason2
        = HandleSession sendOk rooms0 noteID userID conn frames reason := by
  refine ⟨rfl, rfl, ?_, fun _ => rfl⟩
  refine ⟨BroadcastToRoom sendOk (JoinRoom rooms0 noteID conn) noteID conn textMessage
      (presenceMessage "join" userID)
    ++ runLoop sendOk (JoinRoom rooms0 noteID conn) noteID userID conn frames, ?_⟩
  simp [HandleSession]

/-! ## C3: identity stamping on relay -/

lemma validType_ne_empty (t : String) (ht : validType t = true) : t ≠ "" := by
  intro h
  rw [h] at ht
  exact absurd ht (by decide)

lemma decodeFields_skip : ∀ (extra : List (String × Json)) (t c : String),
    (∀ e ∈ extra, keyMatches e.1 "type" = false ∧ keyMatches e.1 "content" = false) →
    decodeFields extra t c = some ⟨t, c⟩
  | [], _, _, _ => rfl
  | (k, v) :: rest, t, c, h => by
    have hk := h (k, v) (List.mem_cons_self _ _)
    have ih := decodeFields_skip rest t c (fun e he => h e (List.mem_cons_of_mem _ he))
    simp [decodeFields, hk.1, hk.2, ih]

lemma decode_type_content (t c : String) (extra : List (String × Json))
    (hextra : ∀ e ∈ extra, keyMatches e.1 "type" = false ∧ keyMatches e.1 "content" = false) :
    decodeIncoming (Json.obj (("type", Json.str t) :: ("content", Json.str c) :: extra))
      = some ⟨t, c⟩ := by
  have km1 : keyMatches "type" "type" = true := by decide
  have km2 : keyMatches "content" "type" = false := by decide
  have km3 : keyMatches "content" "content" = true := by decide
  simp [decodeIncoming, decodeFields, km1, km2, km3, decodeFields_skip extra t c hextra]

/-- C3: a valid inbound message of whitelisted type t and non-empty content
c, read from the session of verified identity userID in a room whose only
member other than the reading connection is m, produces exactly one outbound
send, targeted at m, whose payload is the JSON object with exactly the
members content c, type t and user-id userID (Go marshals the outgoing map
with its keys in sorted order, which is the same JSON object). -/
theorem relay_identity_stamped (sendOk : Conn → Bool) (rooms : Rooms)
    (noteID userID : String) (conn m : Conn) (t c : String) (mt : Int)
    (room : List Conn)
    (hroom : lookupRoom rooms noteID = some room)
    (hmem : room.filter (fun x => x != conn) = [m])
    (ht : validType t = true) (hc : c ≠ "") :
    runLoop sendOk rooms noteID userID conn
        [(mt, Payload.value (Json.obj [("type", Json.str t), ("content", Json.str c)]))]
      = [⟨m, mt, Json.obj [("content", Json.str c), ("type", Json.str t),
            ("user-id", Json.str userID)], sendOk m⟩] := by
  have hd := decode_type_content t c [] (by intro e he; simp at he)
  have hte := validType_ne_empty t ht
  simp [runLoop, processFrame, hd, hte, hc, ht, BroadcastToRoom, hroom, hmem,
    marshalOutgoing]

/-- Witness for C3: identity u1 sends an edit in room r1 whose other member
is connection 1. -/
theorem relay_identity_stamped_witness :
    lookupRoom [("r1", [0, 1])] "r1" = some [0, 1]
    ∧ [0, 1].filter (fun x => x != (0 : Conn)) = [1]
    ∧ validType "edit" = true
    ∧ "hello" ≠ ""
    ∧ runLoop (fun _ => true) [("r1", [0, 1])] "r1" "u1" 0
        [(1, Payload.value (Json.obj [("type", Json.str "edit"),
            ("content", Json.str "hello")]))]
      = [⟨1, 1, Json.obj [("content", Json.str "hello"), ("type", Json.str "edit"),
            ("user-id", Json.str "u1")], true⟩] :=
  ⟨by decide, by decide, by decide, by decide,
    relay_identity_stamped (fun _ => true) [("r1", [0, 1])] "r1" "u1" 0 1 "edit"
      "hello" 1 [0, 1] (by decide) (by decide) (by decide) (by decide)⟩

/-! ## C4: invalid inbound payloads are dropped without ending the session -/

/-- C4: an inbound payload that is not parseable JSON, or that decodes with
an empty type, or with empty content, or with a type outside the whitelist
(edit, typing, cursor), causes zero outbound sends, and the receive loop
continues with the remaining frames; inserting such a payload in front of a
session's frames changes nothing in the whole session outcome (registry
state, send trace, closure), so in particular the registry state is
unchanged and the session does not start its teardown because of it. -/
theorem invalid_payload_dropped (sendOk : Conn → Bool) (rooms rooms0 : Rooms)
    (noteID userID : String) (conn : Conn) (mt : Int) (p : Payload)
    (rest : List (Int × Payload)) (reason : ExitReason)
    (h : p = Payload.malformed ∨
      ∃ j inc, p = Payload.value j ∧ decodeIncoming j = some inc ∧
        (inc.type = "" ∨ inc.content = "" ∨ validType inc.type = false)) :
    processFrame sendOk rooms noteID userID conn mt p = []
    ∧ runLoop sendOk rooms noteID userID conn ((mt, p) :: rest)
        = runLoop sendOk rooms noteID userID conn rest
    ∧ HandleSession sendOk rooms0 noteID userID conn ((mt, p) :: rest) reason
        = HandleSession sendOk rooms0 noteID userID conn rest reason := by
  have key : ∀ rms : Rooms, processFrame sendOk rms noteID userID conn mt p = [] := by
    intro rms
    rcases h with h1 | ⟨j, inc, hp, hdec, hbad⟩
    · rw [h1]
      rfl
    · rw [hp]
      simp only [processFrame, hdec]
      rcases hbad with hb | hb | hb
      · simp [hb]
      · simp [hb]
      · by_cases hty : inc.type = "" ∨ inc.content = ""
        · simp [hty]
        · simp [hty, hb]
  refine ⟨key rooms, ?_, ?_⟩
  · simp [runLoop, key rooms]
  · simp [HandleSession, runLoop, key (JoinRoom rooms0 noteID conn)]

/-- Witness for C4: a frame that is not parseable JSON is dropped and the
session goes on. -/
theorem invalid_payload_dropped_witness :
    (Payload.malformed = Payload.malformed ∨
      ∃ j inc, Payload.malformed = Payload.value j ∧ decodeIncoming j = some inc ∧
        (inc.type = "" ∨ inc.content = "" ∨ validType inc.type = false))
    ∧ processFrame (fun _ => true) [("r", [0, 1])] "r" "u" 0 1 Payload.malformed = []
    ∧ runLoop (fun _ => true) [("r", [0, 1])] "r" "u" 0 [(1, Payload.malformed)]
        = runLoop (fun _ => true) [("r", [0, 1])] "r" "u" 0 []
    ∧ HandleSession (fun _ => true) [] "r" "u" 0 [(1, Payload.malformed)]
          ExitReason.abruptDisconnect
        = HandleSession (fun _ => true) [] "r" "u" 0 [] ExitReason.abruptDisconnect :=
  ⟨Or.inl rfl,
    invalid_payload_dropped (fun _ => true) [("r", [0, 1])] [] "r" "u" 0 1
      Payload.malformed [] ExitReason.abruptDisconnect (Or.inl rfl)⟩

/-! ## C10: unknown inbound members and the rebroadcast shape -/

/-- C10 counterexample: the claim quantifies over JSON objects holding the
required non-empty type and content members plus any additional members and
asserts that the rebroadcast object is then always sent with exactly the
keys type, content and user-id.  But encoding/json matches object keys to
struct fields case-insensitively, so the additional member CONTENT with the
number value 5 is decoded into the content field, fails with a type error,
and the whole message is dropped: with identity u1 in room r1 with the other
member 1 present, no outbound message is produced at all, contradicting the
claimed rebroadcast. -/
theorem unknown_fields_counterexample :
    decodeIncoming (Json.obj [("type", Json.str "edit"), ("content", Json.str "hello"),
        ("CONTENT", Json.num 5)]) = none
    ∧ processFrame (fun _ => true) [("r1", [0, 1])] "r1" "u1" 0 1
        (Payload.value (Json.obj [("type", Json.str "edit"), ("content", Json.str "hello"),
          ("CONTENT", Json.num 5)])) = [] :=
  ⟨by decide, rfl⟩

lemma keyMatches_not_both (k : String) (h : keyMatches k "type" = true) :
    keyMatches k "content" = false := by
  unfold keyMatches at h ⊢
  rw [eq_of_beq h]
  decide

lemma decodeFields_members : ∀ (ms : List (String × Json)) (t c a b : String),
    (∀ e ∈ ms, (keyMatches e.1 "type" = true → e.2 = Json.str t) ∧
      (keyMatches e.1 "content" = true → e.2 = Json.str c)) →
    decodeFields ms a b =
      some ⟨if ms.any (fun e => keyMatches e.1 "type") then t else a,
            if ms.any (fun e => keyMatches e.1 "content") then c else b⟩
  | [], _, _, _, _, _ => by simp [decodeFields]
  | (k, v) :: rest, t, c, a, b, h => by
    have hk := h (k, v) (List.mem_cons_self _ _)
    by_cases h1 : keyMatches k "type" = true
    · have hv : v = Json.str t := hk.1 h1
      have h2 : keyMatches k "content" = false := keyMatches_not_both k h1
      subst hv
      have ih := decodeFields_members rest t c t b
        (fun e he => h e (List.mem_cons_of_mem _ he))
      cases hta : rest.any (fun e => keyMatches e.1 "type") <;>
        cases hca : rest.any (fun e => keyMatches e.1 "content") <;>
          simp [decodeFields, h1, h2, ih, List.any_cons, hta, hca]
    · have h1f : keyMatches k "type" = false := by
        cases hb : keyMatches k "type"
        · rfl
        · exact absurd hb h1
      by_cases h2 : keyMatches k "content" = true
      · have hv : v = Json.str c := hk.2 h2
        subst hv
        have ih := decodeFields_members rest t c a c
          (fun e he => h e (List.mem_cons_of_mem _ he))
        cases hta : rest.any (fun e => keyMatches e.1 "type") <;>
          cases hca : rest.any (fun e => keyMatches e.1 "content") <;>
            simp [decodeFields, h1f, h2, ih, List.any_cons, hta, hca]
      · have h2f : keyMatches k "content" = false := by
          cases hb : keyMatches k "content"
          · rfl
          · exact absurd hb h2
        have ih := decodeFields_members rest t c a b
          (fun e he => h e (List.mem_cons_of_mem _ he))
        cases hta : rest.any (fun e => keyMatches e.1 "type") <;>
          cases hca : rest.any (fun e => keyMatches e.1 "content") <;>
            simp [decodeFields, h1f, h2f, ih, List.any_cons, hta, hca]

/-- C10 amended: for every inbound JSON object containing, in any position,
the required members type (whitelisted, string value t) and content
(non-empty string value c) — stated as: every member whose key matches type
under the case-insensitive field matching of encoding/json carries the
string value t, every member whose key matches content carries the string
value c, and at least one member of each kind is present — plus any
additional members, in any position, whose keys match neither field, the
rebroadcast is the broadcast of the JSON object with exactly the members
content, type and user-id, where user-id is the session's verified
identity: the additional members are discarded and never forwarded. -/
theorem unknown_fields_stripped (sendOk : Conn → Bool) (rooms : Rooms)
    (noteID userID : String) (conn : Conn) (mt : Int) (t c : String)
    (ms : List (String × Json))
    (hmem : ∀ e ∈ ms, (keyMatches e.1 "type" = true → e.2 = Json.str t) ∧
      (keyMatches e.1 "content" = true → e.2 = Json.str c))
    (hty : ms.any (fun e => keyMatches e.1 "type") = true)
    (hco : ms.any (fun e => keyMatches e.1 "content") = true)
    (ht : validType t = true) (hc : c ≠ "") :
    processFrame sendOk rooms noteID userID conn mt (Payload.value (Json.obj ms))
      = BroadcastToRoom sendOk rooms noteID conn mt
          (Json.obj [("content", Json.str c), ("type", Json.str t),
            ("user-id", Json.str userID)]) := by
  have hd : decodeIncoming (Json.obj ms) = some ⟨t, c⟩ := by
    simp only [decodeIncoming]
    rw [decodeFields_members ms t c "" "" hmem]
    simp [hty, hco]
  have hte := validType_ne_empty t ht
  simp [processFrame, hd, hte, hc, ht, marshalOutgoing]

/-- Witness for C10 amended: a forged user-id member placed before the
required members is stripped from the relayed payload. -/
theorem unknown_fields_stripped_witness :
    (∀ e ∈ [("user-id", Json.str "forged"), ("type", Json.str "edit"),
        ("content", Json.str "hello")],
      (keyMatches e.1 "type" = true → e.2 = Json.str "edit") ∧
      (keyMatches e.1 "content" = true → e.2 = Json.str "hello"))
    ∧ [("user-id", Json.str "forged"), ("type", Json.str "edit"),
        ("content", Json.str "hello")].any (fun e => keyMatches e.1 "type") = true
    ∧ [("user-id", Json.str "forged"), ("type", Json.str "edit"),
        ("content", Json.str "hello")].any (fun e => keyMatches e.1 "content") = true
    ∧ validType "edit" = true
    ∧ "hello" ≠ ""
    ∧ processFrame (fun _ => true) [("r1", [0, 1])] "r1" "u1" 0 1
        (Payload.value (Json.obj [("user-id", Json.str "forged"),
          ("type", Json.str "edit"), ("content", Json.str "hello")]))
      = BroadcastToRoom (fun _ => true) [("r1", [0, 1])] "r1" 0 1
          (Json.obj [("content", Json.str "hello"), ("type", Json.str "edit"),
            ("user-id", Json.str "u1")]) := by
  have hmem : ∀ e ∈ [("user-id", Json.str "forged"), ("type", Json.str "edit"),
      ("content", Json.str "hello")],
      (keyMatches e.1 "type" = true → e.2 = Json.str "edit") ∧
      (keyMatches e.1 "content" = true → e.2 = Json.str "hello") := by
    intro e he
    simp only [List.mem_cons, List.not_mem_nil, or_false] at he
    rcases he with rfl | rfl | rfl
    · exact ⟨fun hk => absurd hk (by decide), fun hk => absurd hk (by decide)⟩
    · exact ⟨fun _ => rfl, fun hk => absurd hk (by decide)⟩
    · exact ⟨fun hk => absurd hk (by decide), fun _ => rfl⟩
  exact ⟨hmem, by decide, by decide, by decide, by decide,
    unknown_fields_stripped (fun _ => true) [("r1", [0, 1])] "r1" "u1" 0 1 "edit"
      "hello"
      [("user-id", Json.str "forged"), ("type", Json.str "edit"),
        ("content", Json.str "hello")]
      hmem (by decide) (by decide) (by decide) (by decide)⟩
